import Mathlib

/-!
Verification of the time-series normalization, counter accumulation,
deduplicating persistence and forecast reconciliation pipeline of the
predai repository (src/predai/rootfs/predai.py).

Embedding conventions:
  * instants are modelled in minutes (the source truncates seconds and
    microseconds to zero everywhere before comparing timestamps):
    `Nat` minutes for the resampler, `Int` minutes for the reconciler
    (whose timestamp arithmetic must not truncate below zero);
  * float values are modelled as `Rat`; every concrete value exercised
    below is exactly representable in binary floating point, and every
    operation involved (comparison, addition, subtraction, max, abs)
    is exact on such values, so `Rat` and IEEE doubles agree on them;
  * a raw sample state that `float()` rejects with ValueError is
    `none`; a `last_updated` string that `timestr_to_datetime` cannot
    parse is `none`;
  * the `while` loop of `Prophet.process_dataset` is split into one
    non-recursive step function (`processStep`, the loop body;
    it returns `none` exactly when the `while` condition fails and the
    loop exits) iterated by `processLoop` with a fuel parameter; the
    wrapper passes `end_time + length + 2` fuel, which strictly exceeds
    the number of loop iterations whenever the cadence `period` is at
    least one minute, because every iteration either consumes a raw
    sample (at most `length` times) or advances `timenow` by `period`
    minutes (at most `end_time - timenow + 1` times).  For
    `period = 0` the Python loop does not terminate at all, so no
    total embedding can follow it there.  The loop index `data_index`
    into the immutable sample list, which only ever moves forward one
    step at a time, is represented by the remaining suffix of the
    list.
-/

namespace PredAI

/-- One raw Home Assistant history sample as consumed by
`Prophet.process_dataset`: `state` is the parsed float value (`none`
models a string on which `float()` raises ValueError), `last_updated`
the minute-resolution timestamp parsed by `timestr_to_datetime`
(`none` models an unparseable timestamp string). -/
structure RawSample where
  state : Option ℚ
  last_updated : Option ℕ
deriving DecidableEq, Repr

/-- One row of the pandas DataFrame built by `process_dataset`
(columns `ds`, `y`). -/
structure Row where
  ds : ℕ
  y : ℚ
deriving DecidableEq, Repr

/-- `start_time.replace(second=0, microsecond=0, minute=0)`: truncate a
minute-resolution instant down to its hour boundary. -/
def truncHour (t : ℕ) : ℕ := t / 60 * 60

/-- Lines 156-166 of predai.py: the incrementing-mode counter update.
Given the freshly parsed value, the previous raw value and the running
total, return the (possibly spike-clamped) effective value together
with the new running total.

    if value < last_value and value < reset_low and last_value > reset_high:
        total = total + value
    else:
        if max_increment and abs(value - last_value) > max_increment:
            value = last_value  # Avoid spikes
        total = max(total + value - last_value, 0)

Python float truthiness of `max_increment` is `max_increment ≠ 0`. -/
def incrementingUpdate (value last_value total max_increment reset_low reset_high : ℚ) :
    ℚ × ℚ :=
  if value < last_value ∧ value < reset_low ∧ reset_high < last_value then
    (value, total + value)
  else
    let value₂ := if max_increment ≠ 0 ∧ |value - last_value| > max_increment
      then last_value else value
    (value₂, max (total + value₂ - last_value) 0)

/-- The mutable locals of the `process_dataset` loop (lines 130-138 of
predai.py): `timenow`, the remaining suffix of `new_data` (standing for
`data_index`), `value`, `total`, `last_value`, and the DataFrame
`dataset` being appended to. -/
structure LoopState where
  timenow : ℕ
  remaining : List RawSample
  value : ℚ
  total : ℚ
  last_value : Option ℚ
  dataset : List Row
deriving DecidableEq, Repr

/-- One pass through the body of the
`while timenow <= end_time and data_index < data_len` loop of
`Prophet.process_dataset` (lines 141-178 of predai.py), including the
loop condition itself: the result is `none` exactly when the condition
fails and the loop exits, otherwise the state after one iteration.
The loop in the source rebinds `start_time` to the current sample
timestamp; here that is the `last_updated` field of the sample under
the cursor. -/
def processStep (period end_time : ℕ) (incrementing : Bool)
    (max_increment reset_low reset_high : ℚ) (s : LoopState) : Option LoopState :=
  match s.remaining with
  | [] => none
  | d :: rest =>
    if s.timenow ≤ end_time then
      -- value = float(state); on ValueError carry last_value forward, or
      -- skip the sample entirely when no value has ever parsed.  The
      -- pair is (parsed value, last_value after the seeding line).
      let parsed : Option (ℚ × ℚ) :=
        match d.state, s.last_value with
        | some v, none => some (v, v)
        | some v, some lv => some (v, lv)
        | none, some lv => some (lv, lv)
        | none, none => none
      match parsed with
      | none => some { s with remaining := rest, last_value := none }
      | some (value₁, lv₁) =>
        let vt := if incrementing
          then incrementingUpdate value₁ lv₁ s.total max_increment reset_low reset_high
          else (value₁, s.total)
        -- last_value = value happens on every sample, after any clamping
        let value₂ := vt.1
        let total₂ := vt.2
        match d.last_updated with
        | none =>
          some { s with remaining := rest, value := value₂, total := total₂,
                        last_value := some value₂ }
        | some st =>
          if st < s.timenow then
            some { s with remaining := rest, value := value₂, total := total₂,
                          last_value := some value₂ }
          else
            some { timenow := s.timenow + period,
                   remaining := d :: rest,
                   value := value₂,
                   total := if incrementing then 0 else total₂,
                   last_value := some value₂,
                   dataset := s.dataset ++
                     [⟨s.timenow, if incrementing then max 0 total₂ else value₂⟩] }
    else none

/-- Iterate `processStep` until the loop exits (or the fuel runs out,
which the `process_dataset` wrapper prevents for every positive
cadence). -/
def processLoop (period end_time : ℕ) (incrementing : Bool)
    (max_increment reset_low reset_high : ℚ) : ℕ → LoopState → LoopState
  | 0, s => s
  | fuel + 1, s =>
    match processStep period end_time incrementing max_increment reset_low reset_high s with
    | none => s
    | some s₂ =>
      processLoop period end_time incrementing max_increment reset_low reset_high fuel s₂

/-- `Prophet.process_dataset` (lines 126-183 of predai.py): resample the
raw samples onto the fixed cadence, returning the DataFrame and the
final `value` (the scalar carry-over).  `period` is `self.period`. -/
def process_dataset (period : ℕ) (new_data : List RawSample) (start_time end_time : ℕ)
    (incrementing : Bool) (max_increment reset_low reset_high : ℚ) : List Row × ℚ :=
  let final := processLoop period end_time incrementing max_increment reset_low reset_high
    (end_time + new_data.length + 2)
    ⟨truncHour start_time, new_data, 0, 0, none, []⟩
  (final.dataset, final.value)

/-- Predicate picking the raw samples whose (parsed) timestamp is at or
after the tick `t`; samples with an unparseable timestamp never
qualify. -/
def tsAtOrAfter (t : ℕ) (d : RawSample) : Bool :=
  match d.last_updated with
  | some ts => decide (t ≤ ts)
  | none => false

/-- Modelled on the words of the specification (spec-side definition,
for comparison only): the latest raw value whose timestamp is at or
before the tick `t`, i.e. the forward-fill value the specification
asserts for the non-incrementing resampler.  Raw samples arrive in
ascending time order, so the latest such sample is the last one. -/
def specLatestAtOrBefore (data : List RawSample) (t : ℕ) : Option ℚ :=
  match (data.filter fun d =>
      match d.last_updated with
      | some ts => decide (ts ≤ t)
      | none => false).getLast? with
  | some d => d.state
  | none => none

/-- Modelled on the words of the specification (spec-side definition,
for comparison only): the running total obtained by incrementing, for
each consecutive pair of raw values, by the delta floored at zero, so
that a transient negative delta contributes nothing and never reduces
the already-accumulated total. -/
def specNormalTotal (vals : List ℚ) : ℚ :=
  match vals with
  | [] => 0
  | v₀ :: rest => (rest.foldl (fun st w => (st.1 + max (w - st.2) 0, w)) ((0 : ℚ), v₀)).1

/-- `subtract_set` (lines 255-277 of predai.py): subtract the subset
from the dataset, aligned by timestamp.  `subset.loc[subset["ds"] ==
ds]` selects all rows with that timestamp and `.values[0]` takes the
first, hence `List.find?`; a missing timestamp leaves `car_value = 0`.
The `now` parameter is unused by the source body and kept for
signature fidelity. -/
def subtract_set (dataset subset : List Row) (now : ℕ) (incrementing : Bool) : List Row :=
  dataset.foldl (fun pruned row =>
    let car_value : ℚ :=
      match subset.find? (fun s => decide (s.ds = row.ds)) with
      | some c => c.y
      | none => 0
    let value := if incrementing then max (row.y - car_value) 0 else row.y - car_value
    pruned ++ [⟨row.ds, value⟩]) []

/-- Modelled on the words of the specification (spec-side definition,
for comparison only): a left outer join on timestamp followed by
elementwise subtraction, subtracting zero for absent timestamps and
flooring at zero when incrementing, preserving the order and row count
of `primary`. -/
def specSubtract (primary secondary : List Row) (incrementing : Bool) : List Row :=
  primary.map fun r =>
    let sv : ℚ :=
      match secondary.find? (fun s => decide (s.ds = r.ds)) with
      | some c => c.y
      | none => 0
    ⟨r.ds, if incrementing then max (r.y - sv) 0 else r.y - sv⟩

/-- A database table of schema `(timestamp TEXT PRIMARY KEY, value
REAL)`, as a list of rows in insertion order; timestamps are abstracted
to `Nat`. -/
abbrev DbTable := List (ℕ × ℚ)

/-- `cur.execute(INSERT INTO table (timestamp, value) VALUES ...)`
under the PRIMARY KEY constraint: inserting an existing timestamp
raises `sqlite3.IntegrityError`, modelled as `Except.error`. -/
def insertRow (table : DbTable) (timestamp : ℕ) (value : ℚ) : Except Unit DbTable :=
  if timestamp ∈ table.map Prod.fst then Except.error ()
  else Except.ok (table ++ [(timestamp, value)])

/-- The row loop of `Database.store_history` (lines 318-325 of
predai.py).  `prev_values` is the snapshot `prev["ds"].values.tolist()`
taken once before the loop; rows appended to `prev` during the loop do
not update it.  The source appends to `prev` just before executing the
insert; since an error aborts the call either way, the order does not
matter for the result.  Returns the final table and `prev`, or the
uncaught IntegrityError. -/
def storeHistoryLoop (prev_values : List ℕ) :
    List (ℕ × ℚ) → DbTable → List (ℕ × ℚ) → Except Unit (DbTable × List (ℕ × ℚ))
  | [], table, prev => Except.ok (table, prev)
  | (timestamp, value) :: rows, table, prev =>
    if timestamp ∈ prev_values then storeHistoryLoop prev_values rows table prev
    else
      match insertRow table timestamp value with
      | Except.error e => Except.error e
      | Except.ok table₂ =>
        storeHistoryLoop prev_values rows table₂ (prev ++ [(timestamp, value)])

/-- `Database.store_history` (lines 308-328 of predai.py): store the
rows of `history` whose timestamps are not already in `prev`.  `table`
is the current content of the database table.  The source signature
defaults `prev=None`, but that path crashes on
`prev_values.tolist()` (AttributeError) before any insert, and the
only call site always passes the freshly read table content, so
`prev` is required here. -/
def store_history (table : DbTable) (history : List (ℕ × ℚ)) (prev : List (ℕ × ℚ)) :
    Except Unit (DbTable × List (ℕ × ℚ)) :=
  storeHistoryLoop (prev.map Prod.fst) history table prev

/-- One row of the forecast DataFrame consumed by
`Prophet.save_prediction`: `ds` the forecast timestamp (minutes),
`yhat1` the predicted value, `y` the historical actual (`none` models
NaN, which pandas uses for future rows). -/
structure ForecastRow where
  ds : ℤ
  yhat1 : ℚ
  y : Option ℚ
deriving DecidableEq, Repr

/-- Lines 217-219 of predai.py: `diff = ptimestamp - now;
timestamp = now + diff` — the realignment of a forecast timestamp onto
the wall-clock timeline anchored at `now`. -/
def publishedTimestamp (now ds : ℤ) : ℤ := now + (ds - now)

/-- `timestamp.hour` for an instant measured in minutes of local wall
time. -/
def hourOf (t : ℤ) : ℤ := (t.fdiv 60).emod 24

/-- `timestamp.minute` for an instant measured in minutes of local
wall time. -/
def minuteOf (t : ℤ) : ℤ := t.emod 60

/-- `timedelta.days` of a difference measured in minutes: Python floors
toward negative infinity. -/
def timedeltaDays (d : ℤ) : ℤ := d.fdiv 1440

/-- Python `round()` at integer resolution: round half to even. -/
def roundHalfEven (x : ℚ) : ℤ :=
  if x - ⌊x⌋ < 1 / 2 then ⌊x⌋
  else if 1 / 2 < x - ⌊x⌋ then ⌊x⌋ + 1
  else if ⌊x⌋ % 2 = 0 then ⌊x⌋ else ⌊x⌋ + 1

/-- Python `round(q, 2)`. -/
def round2 (q : ℚ) : ℚ := (roundHalfEven (q * 100) : ℚ) / 100

/-- The mutable locals of the `save_prediction` row loop (lines 211-214
of predai.py) plus the per-row `value`/`value_org` (needed after the
loop for the published scalar). -/
structure SPState where
  total : ℚ
  total_org : ℚ
  timeseries : List (ℤ × ℚ)
  timeseries_org : List (ℤ × ℚ)
  value : ℚ
  value_org : Option ℚ
deriving DecidableEq, Repr

/-- `dict[key] = value` on a timestamp-keyed mapping represented as an
association list in insertion order: overwrite an existing key,
otherwise append. -/
def dictSet (m : List (ℤ × ℚ)) (k : ℤ) (v : ℚ) : List (ℤ × ℚ) :=
  if m.any (fun p => decide (p.1 = k)) then
    m.map (fun p => if p.1 = k then (k, v) else p)
  else m ++ [(k, v)]

/-- The body of the `for index, row in pred.iterrows()` loop of
`Prophet.save_prediction` (lines 216-248 of predai.py) for one forecast
row.  `timestamp.strftime` keys the dictionaries; distinct instants
give distinct strings (one fixed format and timezone), so the key is
the instant itself.  `if not math.isnan(value_org)` is the `some`
branch of `r.y`; the Python truthiness test `if value_org:` is
`some v` with `v ≠ 0` (the NaN branch set `value_org = None`). -/
def savePredictionStep (now : ℤ) (incrementing reset_daily : Bool) (days : ℕ)
    (st : SPState) (r : ForecastRow) : SPState :=
  let timestamp := publishedTimestamp now r.ds
  let value := r.yhat1
  let value_org := r.y
  -- Daily reset?
  let st₁ := if timestamp ≤ now ∧ reset_daily = true ∧
      hourOf timestamp = 0 ∧ minuteOf timestamp = 0 then
    { st with total := 0, total_org := 0 }
  else st
  let total := st₁.total + value
  let total_org :=
    match value_org with
    | some v => st₁.total_org + v
    | none => st₁.total_org
  -- Avoid too much history in HA
  if timedeltaDays (timestamp - now) < -(days : ℤ) then
    { total := total, total_org := total_org, timeseries := st₁.timeseries,
      timeseries_org := st₁.timeseries_org, value := value, value_org := value_org }
  else if incrementing then
    { total := total, total_org := total_org,
      timeseries := dictSet st₁.timeseries timestamp (round2 total),
      timeseries_org :=
        match value_org with
        | some v =>
          if v = 0 then st₁.timeseries_org
          else dictSet st₁.timeseries_org timestamp (round2 total_org)
        | none => st₁.timeseries_org,
      value := value, value_org := value_org }
  else
    { total := total, total_org := total_org,
      timeseries := dictSet st₁.timeseries timestamp (round2 value),
      timeseries_org :=
        match value_org with
        | some v =>
          if v = 0 then st₁.timeseries_org
          else dictSet st₁.timeseries_org timestamp (round2 v)
        | none => st₁.timeseries_org,
      value := value, value_org := value_org }

/-- `Prophet.save_prediction` (lines 206-253 of predai.py) up to the
final `set_state` call: walk the forecast rows accumulating the running
totals and the `results`/`source` mappings. -/
def save_prediction (now : ℤ) (incrementing reset_daily : Bool) (days : ℕ)
    (pred : List ForecastRow) : SPState :=
  pred.foldl (savePredictionStep now incrementing reset_daily days) ⟨0, 0, [], [], 0, none⟩

/-- The scalar published as the entity state:
`final = total if incrementing else value`, rounded to two decimals. -/
def save_prediction_final (now : ℤ) (incrementing reset_daily : Bool) (days : ℕ)
    (pred : List ForecastRow) : ℚ :=
  let st := save_prediction now incrementing reset_daily days pred
  round2 (if incrementing then st.total else st.value)

/-- Unfolding lemma for `processLoop` usable at numeral fuel values. -/
theorem processLoop_step (period end_time : ℕ) (incrementing : Bool)
    (max_increment reset_low reset_high : ℚ) (fuel : ℕ) (s : LoopState)
    (h : fuel ≠ 0) :
    processLoop period end_time incrementing max_increment reset_low reset_high fuel s =
      match processStep period end_time incrementing max_increment reset_low reset_high s with
      | none => s
      | some s₂ =>
        processLoop period end_time incrementing max_increment reset_low reset_high
          (fuel - 1) s₂ := by
  cases fuel with
  | zero => exact absurd rfl h
  | succ n => rfl

/-- When the cadence cursor already lies beyond `end_time`, the loop
condition fails immediately and the state is returned unchanged. -/
theorem processLoop_exit_of_timenow_gt (period end_time : ℕ) (inc : Bool)
    (mi rl rh : ℚ) (fuel : ℕ) (s : LoopState) (h : ¬ s.timenow ≤ end_time) :
    processLoop period end_time inc mi rl rh fuel s = s := by
  cases fuel with
  | zero => rfl
  | succ n =>
    obtain ⟨tn, rem, v, t, lv, ds⟩ := s
    have hstep : processStep period end_time inc mi rl rh ⟨tn, rem, v, t, lv, ds⟩ = none := by
      cases rem <;> simp_all [processStep]
    simp only [processLoop, hstep]

/-- Loop invariant for the non-incrementing resampler: provided every
raw sample parses and carries a timestamp, every row the loop appends
to the dataset takes its value from the first raw sample whose
timestamp is at or after the emitted tick.  `done` is the prefix of
already-consumed samples, all of which lie strictly before the cadence
cursor. -/
theorem processLoop_bfill_mem (period end_time : ℕ) (mi rl rh : ℚ)
    (data : List RawSample)
    (H : ∀ d ∈ data, d.state.isSome ∧ d.last_updated.isSome) :
    ∀ (fuel : ℕ) (s : LoopState) (done : List RawSample),
      data = done ++ s.remaining →
      (∀ d ∈ done, ∀ ts, d.last_updated = some ts → ts < s.timenow) →
      ∀ r ∈ (processLoop period end_time false mi rl rh fuel s).dataset,
        r ∈ s.dataset ∨
          ∃ d, data.find? (tsAtOrAfter r.ds) = some d ∧ d.state = some r.y := by
  intro fuel
  induction fuel with
  | zero => intro s done _ _ r hr; exact Or.inl hr
  | succ n ih =>
    rintro ⟨tn, rem, val, tot, lv, ds⟩ done hsplit hdone r hr
    rcases rem with _ | ⟨d, rest⟩
    · have hstep : processStep period end_time false mi rl rh ⟨tn, [], val, tot, lv, ds⟩
          = none := by simp [processStep]
      simp only [processLoop, hstep] at hr
      exact Or.inl hr
    · have hdmem : d ∈ data := by
        rw [hsplit]; exact List.mem_append_right done (List.mem_cons_self d rest)
      obtain ⟨v, hv⟩ := Option.isSome_iff_exists.mp (H d hdmem).1
      obtain ⟨ts, hts⟩ := Option.isSome_iff_exists.mp (H d hdmem).2
      by_cases h1 : tn ≤ end_time
      · by_cases h2 : ts < tn
        · -- sample strictly before the cursor: consumed without emitting
          have hstep : processStep period end_time false mi rl rh ⟨tn, d :: rest, val, tot, lv, ds⟩
              = some ⟨tn, rest, v, tot, some v, ds⟩ := by
            rcases lv with _ | lv₀ <;> simp [processStep, hv, hts, h1, h2]
          simp only [processLoop, hstep] at hr
          have hsplit₂ : data = (done ++ [d]) ++ rest := by
            rw [hsplit]; simp
          have hdone₂ : ∀ d' ∈ done ++ [d], ∀ ts', d'.last_updated = some ts' → ts' < tn := by
            intro d' hd' ts' hlu
            rcases List.mem_append.mp hd' with h | h
            · exact hdone d' h ts' hlu
            · rw [List.mem_singleton.mp h, hts] at hlu
              cases hlu
              exact h2
          exact ih ⟨tn, rest, v, tot, some v, ds⟩ (done ++ [d]) hsplit₂ hdone₂ r hr
        · -- sample at or after the cursor: emit one row at `tn`
          have hstep : processStep period end_time false mi rl rh ⟨tn, d :: rest, val, tot, lv, ds⟩
              = some ⟨tn + period, d :: rest, v, tot, some v, ds ++ [⟨tn, v⟩]⟩ := by
            rcases lv with _ | lv₀ <;> simp [processStep, hv, hts, h1, h2]
          simp only [processLoop, hstep] at hr
          have hsplit₂ : data = done ++ (d :: rest) := hsplit
          have hdone₂ : ∀ d' ∈ done, ∀ ts', d'.last_updated = some ts' → ts' < tn + period := by
            intro d' hd' ts' hlu
            exact Nat.lt_of_lt_of_le (hdone d' hd' ts' hlu) (Nat.le_add_right _ _)
          rcases ih ⟨tn + period, d :: rest, v, tot, some v, ds ++ [⟨tn, v⟩]⟩ done
              hsplit₂ hdone₂ r hr with hmem | hP
          · rcases List.mem_append.mp hmem with h | h
            · exact Or.inl h
            · -- the freshly emitted row ⟨tn, v⟩
              right
              have hrds : r = ⟨tn, v⟩ := List.mem_singleton.mp h
              refine ⟨d, ?_, ?_⟩
              · rw [hsplit, List.find?_append]
                have hnone : done.find? (tsAtOrAfter r.ds) = none := by
                  rw [List.find?_eq_none]
                  intro x hx
                  have hxmem : x ∈ data := by
                    rw [hsplit]; exact List.mem_append_left _ hx
                  obtain ⟨tsx, htsx⟩ := Option.isSome_iff_exists.mp (H x hxmem).2
                  have hlt : tsx < tn := hdone x hx tsx htsx
                  simp [tsAtOrAfter, htsx, hrds]
                  omega
                rw [hnone]
                have hpd : tsAtOrAfter r.ds d = true := by
                  simp [tsAtOrAfter, hts, hrds]
                  omega
                simp [List.find?_cons_of_pos _ hpd]
              · rw [hrds, hv]
          · exact Or.inr hP
      · -- past end_time: the loop exits without touching the dataset
        have hstep : processStep period end_time false mi rl rh ⟨tn, d :: rest, val, tot, lv, ds⟩
            = none := by simp [processStep, h1]
        simp only [processLoop, hstep] at hr
        exact Or.inl hr

/-- C1 (amended): non-incrementing resampling has backward-fill, not
forward-fill, semantics.  For every raw sample sequence whose samples
all parse and carry timestamps, the value emitted at each cadence tick
`t` equals the value of the first raw sample whose timestamp is at or
after `t` (the loop emits a row for the sample under the cursor before
advancing past it); gaps in the raw input are therefore filled with
the next parsed value, never with null. -/
theorem claim1_nonincrementing_fill_from_next_sample
    (period : ℕ) (new_data : List RawSample) (start_time end_time : ℕ) (mi rl rh : ℚ)
    (H : ∀ d ∈ new_data, d.state.isSome ∧ d.last_updated.isSome) :
    ∀ r ∈ (process_dataset period new_data start_time end_time false mi rl rh).1,
      ∃ d, new_data.find? (tsAtOrAfter r.ds) = some d ∧ d.state = some r.y := by
  intro r hr
  have h := processLoop_bfill_mem period end_time mi rl rh new_data H
    (end_time + new_data.length + 2) ⟨truncHour start_time, new_data, 0, 0, none, []⟩
    [] rfl (by intro d hd; cases hd) r hr
  rcases h with h0 | h
  · exact absurd h0 (List.not_mem_nil r)
  · exact h

/-- C1 witness: the amended theorem applied to a concrete run. -/
theorem claim1_amended_witness :
    ∃ d, ([⟨some 1, some 605⟩] : List RawSample).find? (tsAtOrAfter 600) = some d ∧
      d.state = some (1 : ℚ) := by
  have hev : (process_dataset 30 [⟨some 1, some 605⟩] 600 660 false 0 0 0).1
      = [⟨600, 1⟩] := by
    norm_num [process_dataset, processLoop_step, processStep, truncHour]
  exact claim1_nonincrementing_fill_from_next_sample 30 [⟨some 1, some 605⟩] 600 660 0 0 0
    (by decide) ⟨600, 1⟩ (by rw [hev]; exact List.mem_singleton.mpr rfl)

/-- C1 counterexample: with samples at 10:05 (value 1) and 10:45
(value 2), the tick 10:30 is emitted with value 2 (the next sample at
or after the tick), while the latest raw value at or before 10:30 — the
value the claim asserts — is 1. -/
theorem claim1_counterexample :
    (process_dataset 30 [⟨some 1, some 605⟩, ⟨some 2, some 645⟩] 600 660 false 0 0 0).1
        = [⟨600, 1⟩, ⟨630, 2⟩] ∧
      specLatestAtOrBefore [⟨some 1, some 605⟩, ⟨some 2, some 645⟩] 630 = some 1 ∧
      (2 : ℚ) ≠ 1 := by
  refine ⟨?_, by decide, by norm_num⟩
  norm_num [process_dataset, processLoop_step, processStep, truncHour]

/-- C8 (amended): the returned series is empty whenever `end_time` is
earlier than `start_time` truncated to its hour (the cadence cursor is
initialized to that truncation, so the loop condition fails at once).
When `end_time` lies between the truncated hour and `start_time`
itself, rows can still be emitted even though `end_time < start_time`. -/
theorem claim8_amended_empty_when_end_before_truncated_start
    (period : ℕ) (new_data : List RawSample) (start_time end_time : ℕ)
    (inc : Bool) (mi rl rh : ℚ) (h : end_time < truncHour start_time) :
    process_dataset period new_data start_time end_time inc mi rl rh = ([], 0) := by
  have hexit := processLoop_exit_of_timenow_gt period end_time inc mi rl rh
    (end_time + new_data.length + 2) ⟨truncHour start_time, new_data, 0, 0, none, []⟩
    (Nat.not_le.mpr h)
  simp [process_dataset, hexit]

/-- C8 witness: the amended theorem applied to a concrete run. -/
theorem claim8_amended_witness :
    process_dataset 30 [⟨some 1, some 605⟩] 630 590 false 0 0 0 = ([], 0) :=
  claim8_amended_empty_when_end_before_truncated_start 30 [⟨some 1, some 605⟩] 630 590
    false 0 0 0 (by norm_num [truncHour])

/-- C8 counterexample: `end_time = 615` is strictly earlier than
`start_time = 630`, yet the sample at minute 605 produces an output
row, because the cadence cursor starts at the truncated hour 600 and
`600 ≤ 615` lets the loop run. -/
theorem claim8_counterexample :
    (process_dataset 30 [⟨some 1, some 605⟩] 630 615 false 0 0 0).1 = [⟨600, 1⟩] ∧
      615 < 630 ∧ ([⟨(600 : ℕ), (1 : ℚ)⟩] : List Row) ≠ [] := by
  refine ⟨?_, by norm_num, by simp⟩
  norm_num [process_dataset, processLoop_step, processStep, truncHour]

/-- C2 (amended): in the normal (non-reset, non-clamped) branch the
running total is updated to `max(total + (new_value - previous_value),
0)` — the floor applies to the whole sum, not to the delta, so the
total never becomes negative, but a transient negative delta does
reduce an already-accumulated positive total (down to at most zero). -/
theorem claim2_amended_sum_floored_at_zero (v lv t mi rl rh : ℚ)
    (hreset : ¬(v < lv ∧ v < rl ∧ rh < lv))
    (hclamp : mi = 0 ∨ |v - lv| ≤ mi) :
    (incrementingUpdate v lv t mi rl rh).2 = max (t + (v - lv)) 0 ∧
      0 ≤ (incrementingUpdate v lv t mi rl rh).2 := by
  have hcl : ¬(mi ≠ 0 ∧ |v - lv| > mi) := by
    rcases hclamp with h | h
    · intro hc; exact hc.1 h
    · intro hc; exact absurd h (not_le.mpr hc.2)
  constructor
  · simp only [incrementingUpdate, if_neg hreset, if_neg hcl]
    ring_nf
  · simp only [incrementingUpdate, if_neg hreset, if_neg hcl]
    exact le_max_right _ _

/-- C2 witness: the amended theorem applied at a concrete input where
the negative delta reduces the accumulated total from 4 to 2. -/
theorem claim2_amended_witness :
    (incrementingUpdate 12 14 4 0 0 0).2 = max ((4 : ℚ) + (12 - 14)) 0 ∧
      (0 : ℚ) ≤ (incrementingUpdate 12 14 4 0 0 0).2 :=
  claim2_amended_sum_floored_at_zero 12 14 4 0 0 0 (by norm_num) (Or.inl rfl)

/-- C2 counterexample: raw values 10, 14, 12 inside one cadence window.
The code emits a total of 2 (`max(4 + (12 - 14), 0)`), whereas
flooring the delta itself at zero, as the claim states, would leave the
already-accumulated total of 4 untouched and emit 4. -/
theorem claim2_counterexample :
    (process_dataset 30 [⟨some 10, some 590⟩, ⟨some 14, some 595⟩, ⟨some 12, some 605⟩]
        600 660 true 0 0 0).1 = [⟨600, 2⟩] ∧
      specNormalTotal [10, 14, 12] = 4 ∧ (2 : ℚ) ≠ 4 := by
  refine ⟨?_, ?_, by norm_num⟩
  · norm_num [process_dataset, processLoop_step, processStep, truncHour, incrementingUpdate]
  · norm_num [specNormalTotal]

/-- C3 (confirmed): reset detection is exactly the strict three-way
condition.  When the new value is strictly below the previous value,
strictly below `reset_low`, and the previous value is strictly above
`reset_high`, the new value itself is added to the running total; when
the new value equals `reset_low`, or the previous value equals
`reset_high`, the normal-case update applies instead; and on the raw
sequence `[10, 12, 1, 3]` with `reset_low = 2`, `reset_high = 8` the
`12 -> 1` transition adds `+1` to the total (from 2 to 3), the whole
run emitting the accumulated 5. -/
theorem claim3_reset_detection :
    (∀ v lv t mi rl rh : ℚ, v < lv → v < rl → rh < lv →
        (incrementingUpdate v lv t mi rl rh).2 = t + v)
    ∧ (∀ lv t rl rh : ℚ, rh < lv →
        (incrementingUpdate rl lv t 0 rl rh).2 = max (t + rl - lv) 0)
    ∧ (∀ v t rl rh : ℚ, v < rl →
        (incrementingUpdate v rh t 0 rl rh).2 = max (t + v - rh) 0)
    ∧ (incrementingUpdate 1 12 2 0 2 8).2 = 2 + 1
    ∧ (process_dataset 30
        [⟨some 10, some 590⟩, ⟨some 12, some 592⟩, ⟨some 1, some 594⟩, ⟨some 3, some 605⟩]
        600 660 true 0 2 8).1 = [⟨600, 5⟩] := by
  refine ⟨?_, ?_, ?_, by norm_num [incrementingUpdate], ?_⟩
  · intro v lv t mi rl rh h1 h2 h3
    have hc : v < lv ∧ v < rl ∧ rh < lv := ⟨h1, h2, h3⟩
    simp only [incrementingUpdate, if_pos hc]
  · intro lv t rl rh h
    have hreset : ¬(rl < lv ∧ rl < rl ∧ rh < lv) := fun hc => lt_irrefl rl hc.2.1
    simp [incrementingUpdate, if_neg hreset]
  · intro v t rl rh h
    have hreset : ¬(v < rh ∧ v < rl ∧ rh < rh) := fun hc => lt_irrefl rh hc.2.2
    simp [incrementingUpdate, if_neg hreset]
  · norm_num [process_dataset, processLoop_step, processStep, truncHour, incrementingUpdate]

/-- C3 witness: the reset branch of the theorem applied at the concrete
`12 -> 1` transition with an accumulated total of 7. -/
theorem claim3_witness :
    (incrementingUpdate 1 12 7 0 2 8).2 = 7 + 1 :=
  claim3_reset_detection.1 1 12 7 0 2 8 (by norm_num) (by norm_num) (by norm_num)

/-- C4 (confirmed): when `max_increment` is nonzero, the absolute delta
strictly exceeds it, the reset condition does not hold, and the running
total is nonnegative (as in every run whose resets only ever add
nonnegative readings), the sample is clamped to the previous value and
the update leaves the total unchanged — the spike contributes zero; on
the run `[10, 100, 11]` with `max_increment = 5` the emitted deltas are
`0, 0, 1` and the jump to 100 appears in no output row. -/
theorem claim4_spike_filter :
    (∀ v lv t mi rl rh : ℚ, mi ≠ 0 → |v - lv| > mi →
        ¬(v < lv ∧ v < rl ∧ rh < lv) → 0 ≤ t →
        incrementingUpdate v lv t mi rl rh = (lv, t))
    ∧ (process_dataset 30
        [⟨some 10, some 605⟩, ⟨some 100, some 635⟩, ⟨some 11, some 665⟩]
        600 700 true 5 0 0).1 = [⟨600, 0⟩, ⟨630, 0⟩, ⟨660, 1⟩] := by
  constructor
  · intro v lv t mi rl rh hmi habs hreset ht
    have hc : mi ≠ 0 ∧ |v - lv| > mi := ⟨hmi, habs⟩
    simp only [incrementingUpdate, if_neg hreset, if_pos hc]
    have harith : t + lv - lv = t := by ring
    rw [harith, max_eq_left ht]
  · norm_num [process_dataset, processLoop_step, processStep, truncHour, incrementingUpdate]

/-- C4 witness: the clamping branch of the theorem applied at the
concrete spike `10 -> 100` with `max_increment = 5`. -/
theorem claim4_witness :
    incrementingUpdate 100 10 0 5 0 0 = ((10 : ℚ), (0 : ℚ)) :=
  claim4_spike_filter.1 100 10 0 5 0 0 (by norm_num) (by norm_num) (by norm_num) le_rfl

/-- Folding row-appends from an empty accumulator is a map. -/
theorem foldl_push_eq_append_map {α β : Type} (f : α → β) :
    ∀ (l : List α) (acc : List β), l.foldl (fun a r => a ++ [f r]) acc = acc ++ l.map f := by
  intro l
  induction l with
  | nil => intro acc; simp
  | cons x xs ih => intro acc; simp [ih]

/-- C7 (confirmed): `subtract_set` returns exactly one row per primary
row, in primary order, subtracting the secondary value found at the
identical timestamp (zero when absent) and flooring at zero when
incrementing — the spec-side left outer join — never negative in
incrementing mode, and the concrete example
`subtract([{t1:10, t2:20}], [{t1:3}], incrementing=True)` yields
`[{t1:7, t2:20}]`. -/
theorem claim7_subtract_set :
    (∀ (dataset subset : List Row) (now : ℕ) (incrementing : Bool),
        subtract_set dataset subset now incrementing = specSubtract dataset subset incrementing)
    ∧ (∀ (dataset subset : List Row) (now : ℕ),
        ∀ r ∈ subtract_set dataset subset now true, 0 ≤ r.y)
    ∧ subtract_set [⟨1, 10⟩, ⟨2, 20⟩] [⟨1, 3⟩] 0 true = [⟨1, 7⟩, ⟨2, 20⟩] := by
  have hmain : ∀ (dataset subset : List Row) (now : ℕ) (incrementing : Bool),
      subtract_set dataset subset now incrementing = specSubtract dataset subset incrementing := by
    intro dataset subset now incrementing
    simp only [subtract_set, specSubtract]
    rw [foldl_push_eq_append_map]
    simp
  refine ⟨hmain, ?_, ?_⟩
  · intro dataset subset now r hr
    rw [hmain] at hr
    simp only [specSubtract, List.mem_map] at hr
    obtain ⟨a, _, rfl⟩ := hr
    simp only [if_true]
    exact le_max_right _ _
  · rw [hmain]
    norm_num [specSubtract, List.find?]

/-- C7 witness: the incrementing floor of the theorem applied to the
one row of a run whose subtraction would otherwise go negative. -/
theorem claim7_witness : (0 : ℚ) ≤ (Row.mk 1 0).y :=
  claim7_subtract_set.2.1 [⟨1, 2⟩] [⟨1, 5⟩] 0 ⟨1, 0⟩
    (by norm_num [subtract_set, List.find?])

/-- The loop of `store_history` succeeds, and keeps table timestamps
unique, whenever the candidate rows carry distinct timestamps and every
table timestamp already lies in the `prev_values` snapshot. -/
theorem storeHistoryLoop_ok (pv : List ℕ) :
    ∀ (hist : List (ℕ × ℚ)) (table prev : List (ℕ × ℚ)),
      (hist.map Prod.fst).Nodup →
      (table.map Prod.fst).Nodup →
      (∀ k ∈ hist.map Prod.fst, k ∈ table.map Prod.fst → k ∈ pv) →
      ∃ t₂ p₂, storeHistoryLoop pv hist table prev = Except.ok (t₂, p₂) ∧
        (t₂.map Prod.fst).Nodup := by
  intro hist
  induction hist with
  | nil => intro table prev _ ht _; exact ⟨table, prev, rfl, ht⟩
  | cons row rows ih =>
    obtain ⟨k, v⟩ := row
    intro table prev hh ht hcov
    have hh₂ : (rows.map Prod.fst).Nodup := by
      simp only [List.map_cons, List.nodup_cons] at hh
      exact hh.2
    have hknot : k ∉ rows.map Prod.fst := by
      simp only [List.map_cons, List.nodup_cons] at hh
      exact hh.1
    by_cases hk : k ∈ pv
    · simp only [storeHistoryLoop, if_pos hk]
      exact ih table prev hh₂ ht fun k' hk' hmem => hcov k' (by simp [hk']) hmem
    · have hknotin : k ∉ table.map Prod.fst := fun hmem => hk (hcov k (by simp) hmem)
      have hins : insertRow table k v = Except.ok (table ++ [(k, v)]) := by
        simp [insertRow, hknotin]
      simp only [storeHistoryLoop, if_neg hk, hins]
      apply ih
      · exact hh₂
      · simpa [List.nodup_append, ht] using hknotin
      · intro k' hk' hmem
        rcases (by simpa using hmem : k' ∈ table.map Prod.fst ∨ k' = k) with h | h
        · exact hcov k' (by simp [hk']) h
        · exact absurd (h ▸ hk') hknot

/-- C6 (amended): `store_history` never reaches a duplicate-key insert —
and so completes without raising, leaving exactly one row per
timestamp — provided the `prev` series passed in covers every timestamp
already in the table (as at the only call site, which reads `prev`
from that same table just before) and the candidate rows carry
distinct timestamps.  A timestamp present in the table but missing
from `prev` is not absorbed: the INSERT raises an uncaught
IntegrityError. -/
theorem claim6_amended_dedup_via_prev (table : DbTable) (history prev : List (ℕ × ℚ))
    (hhist : (history.map Prod.fst).Nodup)
    (htable : (table.map Prod.fst).Nodup)
    (hcover : ∀ k ∈ table.map Prod.fst, k ∈ prev.map Prod.fst) :
    ∃ t₂ p₂, store_history table history prev = Except.ok (t₂, p₂) ∧
      (t₂.map Prod.fst).Nodup :=
  storeHistoryLoop_ok (prev.map Prod.fst) history table prev hhist htable
    fun k _ hmem => hcover k hmem

/-- C6 witness: the amended theorem applied to a concrete overlapping
fetch: the duplicate timestamp 1 is skipped, the new timestamp 2 is
inserted, and no error is raised. -/
theorem claim6_amended_witness :
    ∃ t₂ p₂, store_history [(1, 5)] [(1, 7), (2, 3)] [(1, 5)] = Except.ok (t₂, p₂) ∧
      (t₂.map Prod.fst).Nodup :=
  claim6_amended_dedup_via_prev [(1, 5)] [(1, 7), (2, 3)] [(1, 5)]
    (by decide) (by decide) (by decide)

/-- C6 counterexample: a candidate whose timestamp 1 is already a
primary key of the table, passed with a `prev` that does not list it
(an empty one), reaches the INSERT and raises: the call errors instead
of completing as a silent no-op. -/
theorem claim6_counterexample :
    store_history [(1, 5)] [(1, 7)] [] = Except.error () ∧
      1 ∈ (([(1, 5)] : DbTable).map Prod.fst) ∧
      1 ∈ (([(1, 7)] : List (ℕ × ℚ)).map Prod.fst) := by
  refine ⟨?_, by simp, by simp⟩
  simp [store_history, storeHistoryLoop, insertRow]

/-- C9 (confirmed): the realignment `now + (ptimestamp - now)` of lines
217-219 of predai.py is the identity on instants: every forecast row is
published at its own forecast timestamp, whatever `now` is. -/
theorem claim9_published_timestamp_identity :
    ∀ now ds : ℤ, publishedTimestamp now ds = ds := by
  intro now ds
  unfold publishedTimestamp
  ring

/-- C5 (amended): with `reset_daily`, `save_prediction` resets both
running totals to zero exactly at the forecast rows whose published
timestamp is at or before `now` and falls at local midnight — the reset
happens before the row value is added, so the totals restart from the
row itself — while a row published after `now` never resets, even at
midnight: there the totals simply accumulate. -/
theorem claim5_amended_reset_only_at_past_midnights :
    (∀ (now : ℤ) (inc : Bool) (days : ℕ) (st : SPState) (r : ForecastRow),
        publishedTimestamp now r.ds ≤ now →
        hourOf (publishedTimestamp now r.ds) = 0 →
        minuteOf (publishedTimestamp now r.ds) = 0 →
        (savePredictionStep now inc true days st r).total = r.yhat1 ∧
          (savePredictionStep now inc true days st r).total_org
            = (match r.y with | some v => v | none => 0))
    ∧ (∀ (now : ℤ) (inc rd : Bool) (days : ℕ) (st : SPState) (r : ForecastRow),
        now < publishedTimestamp now r.ds →
        (savePredictionStep now inc rd days st r).total = st.total + r.yhat1 ∧
          (savePredictionStep now inc rd days st r).total_org
            = (match r.y with | some v => st.total_org + v | none => st.total_org)) := by
  constructor
  · intro now inc days st r h1 h2 h3
    have hcond : publishedTimestamp now r.ds ≤ now ∧ true = true ∧
        hourOf (publishedTimestamp now r.ds) = 0 ∧
        minuteOf (publishedTimestamp now r.ds) = 0 := ⟨h1, rfl, h2, h3⟩
    constructor
    · simp only [savePredictionStep]
      split_ifs <;> simp_all
    · cases hy : r.y <;>
        (simp only [savePredictionStep, hy]; split_ifs <;> simp_all)
  · intro now inc rd days st r h
    have hcond : ¬(publishedTimestamp now r.ds ≤ now ∧ rd = true ∧
        hourOf (publishedTimestamp now r.ds) = 0 ∧
        minuteOf (publishedTimestamp now r.ds) = 0) :=
      fun hc => absurd hc.1 (not_le.mpr h)
    constructor
    · simp only [savePredictionStep]
      split_ifs <;> simp_all
    · cases hy : r.y <;>
        (simp only [savePredictionStep, hy]; split_ifs <;> simp_all)

/-- C5 witness: the reset branch of the amended theorem at a concrete
midnight row at `now`, arriving with stale totals 3 and 4. -/
theorem claim5_amended_witness :
    (savePredictionStep 1440 true true 7 ⟨3, 4, [], [], 0, none⟩ ⟨1440, 5, none⟩).total = 5 ∧
      (savePredictionStep 1440 true true 7 ⟨3, 4, [], [], 0, none⟩
        ⟨1440, 5, none⟩).total_org = 0 := by
  have h := claim5_amended_reset_only_at_past_midnights.1 1440 true 7
    ⟨3, 4, [], [], 0, none⟩ ⟨1440, 5, none⟩ (by decide) (by decide) (by decide)
  simpa using h

/-- C5 counterexample: with `reset_daily = True`, `now` at the midnight
minute 1440 and forecast rows at minutes 1440 (value 5) and 2880
(value 7), the row at 2880 is a local midnight of the published
timeline, yet — being after `now` — it does not reset the running
total: the published series shows 12 there, not the 7 the claim
predicts for a reset at every midnight row. -/
theorem claim5_counterexample :
    List.lookup 2880 (save_prediction 1440 true true 7
        [⟨1440, 5, none⟩, ⟨2880, 7, none⟩]).timeseries = some 12 ∧
      hourOf 2880 = 0 ∧ minuteOf 2880 = 0 ∧ (1440 : ℤ) < 2880 ∧ (12 : ℚ) ≠ 7 := by
  refine ⟨?_, by decide, by decide, by decide, by norm_num⟩
  norm_num [save_prediction, savePredictionStep, publishedTimestamp, hourOf, minuteOf,
    timedeltaDays, dictSet, round2, roundHalfEven, List.lookup]
  decide

/-- Unfolding of `List.lookup` on a cons cell, with the boolean key
comparison replaced by a propositional one. -/
theorem lookup_cons (a k : ℤ) (b : ℚ) (es : List (ℤ × ℚ)) :
    List.lookup a ((k, b) :: es) = if a = k then some b else List.lookup a es := by
  by_cases h : a = k
  · simp [List.lookup, h]
  · have hb : (a == k) = false := beq_eq_false_iff_ne.mpr h
    simp [List.lookup, hb, h]

/-- `dict[k] = v` leaves lookups of other keys unchanged: overwrite
branch. -/
theorem lookup_map_overwrite {k t : ℤ} {v : ℚ} (h : t ≠ k) :
    ∀ m : List (ℤ × ℚ),
      List.lookup t (m.map fun p => if p.1 = k then (k, v) else p) = List.lookup t m := by
  intro m
  induction m with
  | nil => rfl
  | cons p m ih =>
    obtain ⟨pk, pv⟩ := p
    rw [List.map_cons]
    by_cases hp : pk = k
    · subst hp
      rw [show (if (pk, pv).1 = pk then (pk, v) else (pk, pv)) = (pk, v) from by simp]
      rw [lookup_cons, lookup_cons, if_neg h, if_neg h, ih]
    · rw [show (if (pk, pv).1 = k then (k, v) else (pk, pv)) = (pk, pv) from by simp [hp]]
      rw [lookup_cons, lookup_cons]
      by_cases hb : t = pk
      · rw [if_pos hb, if_pos hb]
      · rw [if_neg hb, if_neg hb, ih]

/-- `dict[k] = v` leaves lookups of other keys unchanged: append
branch. -/
theorem lookup_append_single {k t : ℤ} {v : ℚ} (h : t ≠ k) :
    ∀ m : List (ℤ × ℚ), List.lookup t (m ++ [(k, v)]) = List.lookup t m := by
  intro m
  induction m with
  | nil => rw [List.nil_append, lookup_cons, if_neg h]
  | cons p m ih =>
    obtain ⟨pk, pv⟩ := p
    rw [List.cons_append, lookup_cons, lookup_cons]
    by_cases hb : t = pk
    · rw [if_pos hb, if_pos hb]
    · rw [if_neg hb, if_neg hb, ih]

/-- `dict[k] = v` leaves lookups of other keys unchanged. -/
theorem lookup_dictSet_ne {k t : ℤ} {v : ℚ} (h : t ≠ k) (m : List (ℤ × ℚ)) :
    List.lookup t (dictSet m k v) = List.lookup t m := by
  unfold dictSet
  split
  · exact lookup_map_overwrite h m
  · exact lookup_append_single h m

/-- One `save_prediction` row whose actual value is present and equal
to zero (or absent) contributes no entry to the `source` mapping, in
either mode: the published-timestamp key stays absent. -/
theorem savePredictionStep_org_lookup_none (now : ℤ) (inc rd : Bool) (days : ℕ)
    (t : ℤ) (st : SPState) (r : ForecastRow)
    (hst : List.lookup t st.timeseries_org = none)
    (hr : publishedTimestamp now r.ds = t → r.y = some 0) :
    List.lookup t (savePredictionStep now inc rd days st r).timeseries_org = none := by
  have hreset_org : ∀ (c : Prop) (inst : Decidable c),
      (if c then { st with total := 0, total_org := 0 } else st).timeseries_org
        = st.timeseries_org := by
    intro c inst
    split <;> rfl
  by_cases hts : publishedTimestamp now r.ds = t
  · have h0 : r.y = some 0 := hr hts
    simp only [savePredictionStep, h0, hreset_org]
    split_ifs <;> simp [hst]
  · have hne : t ≠ publishedTimestamp now r.ds := fun he => hts he.symm
    cases hy : r.y with
    | none =>
      simp only [savePredictionStep, hy, hreset_org]
      split_ifs <;> simp [hst]
    | some v =>
      simp only [savePredictionStep, hy, hreset_org]
      split_ifs <;> simp [hst, lookup_dictSet_ne hne]

/-- C10 (confirmed): a forecast row whose historical actual is present,
numeric and equal to 0.0 is omitted from the published `source`
mapping, in both incrementing and non-incrementing modes, because the
code tests the actual by Python truthiness (`if value_org:`) rather
than only by the NaN check: if every row published at timestamp `t`
carries an actual of exactly zero (or none at all), `t` is absent from
`source`. -/
theorem claim10_zero_actual_omitted (now : ℤ) (inc rd : Bool) (days : ℕ)
    (pred : List ForecastRow) (t : ℤ)
    (H : ∀ r ∈ pred, publishedTimestamp now r.ds = t → r.y = some 0) :
    List.lookup t (save_prediction now inc rd days pred).timeseries_org = none := by
  suffices h : ∀ (l : List ForecastRow) (st : SPState),
      (∀ r ∈ l, publishedTimestamp now r.ds = t → r.y = some 0) →
      List.lookup t st.timeseries_org = none →
      List.lookup t (l.foldl (savePredictionStep now inc rd days) st).timeseries_org
        = none by
    exact h pred ⟨0, 0, [], [], 0, none⟩ H rfl
  intro l
  induction l with
  | nil => intro st _ hst; exact hst
  | cons r rows ih =>
    intro st hl hst
    refine ih (savePredictionStep now inc rd days st r) (fun r' h' => hl r' (by simp [h'])) ?_
    exact savePredictionStep_org_lookup_none now inc rd days t st r hst (hl r (by simp))

/-- C10 witness: the theorem applied to a one-row forecast whose actual
is exactly zero; its timestamp is absent from `source`. -/
theorem claim10_witness :
    List.lookup 100 (save_prediction 0 true false 7
      [⟨100, 3, some 0⟩]).timeseries_org = none :=
  claim10_zero_actual_omitted 0 true false 7 [⟨100, 3, some 0⟩] 100 (by decide)

end PredAI
